import Mathlib

/-!
Verification development for the thiran orchestration core: a shallow
embedding of its permission gate, agent loop, tool dispatch and provider
stream normalization, with theorems checking the specification's claims
against the embedded code.
-/

set_option maxRecDepth 10000

namespace Thiran

/-! ## JSON values and a model of JSON.parse

The providers call the host runtime's `JSON.parse` on tool-argument payloads.
We model JSON values as an inductive type and implement the JSON grammar
(RFC 8259 value syntax, as accepted by `JSON.parse`) as a fuel-indexed
recursive-descent function. Numbers keep their source lexeme.
-/

inductive Json where
  | null : Json
  | bool : Bool → Json
  | num : String → Json
  | str : String → Json
  | arr : List Json → Json
  | obj : List (String × Json) → Json
deriving Repr

def lbrace : Char := Char.ofNat 123
def rbrace : Char := Char.ofNat 125

def isJsonWs (c : Char) : Bool :=
  c = ' ' ∨ c = '\n' ∨ c = '\t' ∨ c = '\r'

def skipWs : List Char → List Char
  | [] => []
  | c :: cs => if isJsonWs c then skipWs cs else c :: cs

def hexVal (c : Char) : Option Nat :=
  if '0' ≤ c ∧ c ≤ '9' then some (c.toNat - '0'.toNat)
  else if 'a' ≤ c ∧ c ≤ 'f' then some (c.toNat - 'a'.toNat + 10)
  else if 'A' ≤ c ∧ c ≤ 'F' then some (c.toNat - 'A'.toNat + 10)
  else none

def parseStringBody : Nat → List Char → Option (List Char × List Char)
  | 0, _ => none
  | _ + 1, [] => none
  | fuel + 1, c :: cs =>
    if c = '"' then some ([], cs)
    else if c = '\\' then
      match cs with
      | [] => none
      | e :: cs' =>
        let dec : Option (Char × List Char) :=
          if e = 'n' then some ('\n', cs')
          else if e = 't' then some ('\t', cs')
          else if e = 'r' then some ('\r', cs')
          else if e = 'b' then some (Char.ofNat 8, cs')
          else if e = 'f' then some (Char.ofNat 12, cs')
          else if e = '"' ∨ e = '\\' ∨ e = '/' then some (e, cs')
          else if e = 'u' then
            match cs' with
            | h1 :: h2 :: h3 :: h4 :: cs'' =>
              match hexVal h1, hexVal h2, hexVal h3, hexVal h4 with
              | some a, some b, some c', some d =>
                some (Char.ofNat (((a * 16 + b) * 16 + c') * 16 + d), cs'')
              | _, _, _, _ => none
            | _ => none
          else none
        match dec with
        | none => none
        | some (ch, rest) =>
          match parseStringBody fuel rest with
          | none => none
          | some (body, rest') => some (ch :: body, rest')
    else
      match parseStringBody fuel cs with
      | none => none
      | some (body, rest') => some (c :: body, rest')

def parseStringTok (cs : List Char) : Option (String × List Char) :=
  match cs with
  | c :: rest =>
    if c = '"' then
      match parseStringBody (rest.length + 1) rest with
      | some (body, rest') => some (String.mk body, rest')
      | none => none
    else none
  | [] => none

def headIsDigit : List Char → Bool
  | c :: _ => c.isDigit
  | [] => false

def badFracTail : List Char → Bool
  | '.' :: fr => (fr.takeWhile Char.isDigit).isEmpty
  | _ => false

def badExpTail : List Char → Bool
  | e :: er =>
    (e == 'e' || e == 'E') &&
      (match er with
       | s :: r' =>
         if s = '+' ∨ s = '-' then (r'.takeWhile Char.isDigit).isEmpty
         else (er.takeWhile Char.isDigit).isEmpty
       | [] => true)
  | [] => false

def parseNumberTok (cs : List Char) : Option (String × List Char) :=
  let (sgn, cs1) :=
    match cs with
    | c :: r => if c = '-' then ([c], r) else (([] : List Char), cs)
    | [] => ([], [])
  match cs1 with
  | [] => none
  | d :: rest =>
    if ¬ d.isDigit then none
    else if d = '0' ∧ headIsDigit rest then none
    else
      let intPart := d :: rest.takeWhile Char.isDigit
      let afterInt := rest.dropWhile Char.isDigit
      let (fracPart, afterFrac) :=
        match afterInt with
        | '.' :: fr =>
          let ds := fr.takeWhile Char.isDigit
          if ds = [] then ([], afterInt) else ('.' :: ds, fr.dropWhile Char.isDigit)
        | _ => ([], afterInt)
      if badFracTail afterInt then none
      else
        let (expPart, afterExp) :=
          match afterFrac with
          | e :: er =>
            if e = 'e' ∨ e = 'E' then
              let (esgn, er') :=
                match er with
                | s :: r' => if s = '+' ∨ s = '-' then ([s], r') else (([] : List Char), er)
                | [] => ([], er)
              let ds := er'.takeWhile Char.isDigit
              if ds = [] then (([] : List Char), afterFrac)
              else (e :: (esgn ++ ds), er'.dropWhile Char.isDigit)
            else ([], afterFrac)
          | [] => ([], afterFrac)
        if badExpTail afterFrac then none
        else some (String.mk (sgn ++ intPart ++ fracPart ++ expPart), afterExp)

def expectLit (lit : List Char) (cs : List Char) : Option (List Char) :=
  if lit.isPrefixOf cs then some (cs.drop lit.length) else none

/-- Parse the members of an object after the opening brace (first key expected
next), using `pv` to parse the field values. -/
def parseMembersWith (pv : List Char → Option (Json × List Char)) :
    Nat → List Char → Option (List (String × Json) × List Char)
  | 0, _ => none
  | fuel + 1, cs =>
    match parseStringTok (skipWs cs) with
    | none => none
    | some (k, rest) =>
      match skipWs rest with
      | c :: rest' =>
        if c = ':' then
          match pv (skipWs rest') with
          | none => none
          | some (v, rest2) =>
            match skipWs rest2 with
            | c2 :: rest3 =>
              if c2 = ',' then
                match parseMembersWith pv fuel rest3 with
                | some (ms, rest4) => some ((k, v) :: ms, rest4)
                | none => none
              else if c2 = rbrace then some ([(k, v)], rest3)
              else none
            | [] => none
        else none
      | [] => none

/-- Parse the elements of an array after the opening bracket (first element
expected next), using `pv` to parse the elements. -/
def parseElementsWith (pv : List Char → Option (Json × List Char)) :
    Nat → List Char → Option (List Json × List Char)
  | 0, _ => none
  | fuel + 1, cs =>
    match pv (skipWs cs) with
    | none => none
    | some (v, rest) =>
      match skipWs rest with
      | c :: rest' =>
        if c = ',' then
          match parseElementsWith pv fuel rest' with
          | some (vs, rest2) => some (v :: vs, rest2)
          | none => none
        else if c = ']' then some ([v], rest')
        else none
      | [] => none

def parseValue : Nat → List Char → Option (Json × List Char)
  | 0, _ => none
  | fuel + 1, cs =>
    match skipWs cs with
    | [] => none
    | c :: rest =>
      if c = '"' then
        match parseStringTok (c :: rest) with
        | some (s, rest') => some (.str s, rest')
        | none => none
      else if c = lbrace then
        match skipWs rest with
        | c2 :: rest2 =>
          if c2 = rbrace then some (.obj [], rest2)
          else
            match parseMembersWith (parseValue fuel) (rest.length + 1) rest with
            | some (ms, rest') => some (.obj ms, rest')
            | none => none
        | [] => none
      else if c = '[' then
        match skipWs rest with
        | c2 :: rest2 =>
          if c2 = ']' then some (.arr [], rest2)
          else
            match parseElementsWith (parseValue fuel) (rest.length + 1) rest with
            | some (vs, rest') => some (.arr vs, rest')
            | none => none
        | [] => none
      else if c = 't' then
        match expectLit ['r', 'u', 'e'] rest with
        | some rest' => some (.bool true, rest')
        | none => none
      else if c = 'f' then
        match expectLit ['a', 'l', 's', 'e'] rest with
        | some rest' => some (.bool false, rest')
        | none => none
      else if c = 'n' then
        match expectLit ['u', 'l', 'l'] rest with
        | some rest' => some (.null, rest')
        | none => none
      else
        match parseNumberTok (c :: rest) with
        | some (lex, rest') => some (.num lex, rest')
        | none => none

/-- Model of `JSON.parse`: parse one value and require only trailing
whitespace after it; any violation of the grammar throws, modelled as
`none`. -/
def parseJson (s : String) : Option Json :=
  match parseValue (s.toList.length + 1) s.toList with
  | some (j, rest) => if skipWs rest = [] then some j else none
  | none => none

def jsonField (j : Json) (key : String) : Option Json :=
  match j with
  | .obj fields =>
    match fields.find? (fun p => p.1 = key) with
    | some p => some p.2
    | none => none
  | _ => none

def numLexZero (s : String) : Bool :=
  let ds := s.toList.filter Char.isDigit
  ds ≠ [] ∧ ds.all (· = '0')

/-- JavaScript truthiness of a JSON value (`undefined` is modelled by the
absence of the field, i.e. `Option.none` at use sites). -/
def jsTruthy : Json → Bool
  | .null => false
  | .bool b => b
  | .str s => s ≠ ""
  | .num lex => ¬ numLexZero lex
  | .arr _ => true
  | .obj _ => true

/-! ## Permission gate (`src/security/permissions.ts`, `DefaultPermissionManager`)

State is the three allow-list sets (modelled as duplicate-free insertion
lists), the configuration is the approval mode and working directory.  The
injected asynchronous approval callback is modelled by its resolved value, a
pure function from actions to decisions.  `new URL(url).hostname` is a host
runtime API and is abstracted as the `parseHostname` field of the
configuration (`none` models the constructor throwing).  Each check returns,
besides the source's `{granted, reason?}`, the two observable effects needed
by the claims: whether the prompt was consulted and the updated state. -/

inductive ApprovalMode where
  | suggest
  | autoEdit
  | fullAuto
deriving DecidableEq, Repr

inductive PermAction where
  | fileRead (path : String)
  | fileWrite (path : String)
  | fileEdit (path : String)
  | bashExecute (command : String)
  | webFetch (url : String)
  | otherAction
deriving DecidableEq, Repr

structure PermDecision where
  allow : Bool
  remember : Bool
deriving DecidableEq, Repr

structure PermState where
  allowedPaths : List String
  allowedCommands : List String
  allowedUrls : List String
deriving DecidableEq, Repr

structure PermConfig where
  approvalMode : ApprovalMode
  workingDirectory : String
  parseHostname : String → Option String

/-- JavaScript `s.startsWith(pre)`. -/
def jsStartsWith (s pre : String) : Bool :=
  pre.toList.isPrefixOf s.toList

/-- JavaScript `s.trim()`. -/
def jsTrim (s : String) : String :=
  String.mk ((((s.toList.dropWhile Char.isWhitespace).reverse.dropWhile
    Char.isWhitespace)).reverse)

/-- The constructor auto-allows the working directory. -/
def initPermState (workingDirectory : String) : PermState :=
  { allowedPaths := [workingDirectory], allowedCommands := [], allowedUrls := [] }

/-- `Set.add`: insert if not already present. -/
def addIfAbsent (x : String) (xs : List String) : List String :=
  if x ∈ xs then xs else xs ++ [x]

/-- `DefaultPermissionManager.isPathAllowed`: exact match, then bare
`startsWith(workingDirectory)`, then boundary-respecting
`startsWith(allowedPath + '/')` over the allow-list entries. -/
def isPathAllowed (cfg : PermConfig) (st : PermState) (filePath : String) : Bool :=
  st.allowedPaths.contains filePath
  || jsStartsWith filePath cfg.workingDirectory
  || st.allowedPaths.any (fun p => jsStartsWith filePath (p ++ "/"))

structure CheckResult where
  granted : Bool
  reason : Option String
  prompted : Bool
  state : PermState
deriving DecidableEq, Repr

def deniedReason : Option String := some "User denied permission"

def PromptFn : Type := PermAction → PermDecision

def checkFileRead (cfg : PermConfig) (prompt : PromptFn) (st : PermState)
    (filePath : String) : CheckResult :=
  if isPathAllowed cfg st filePath then ⟨true, none, false, st⟩
  else
    let d := prompt (.fileRead filePath)
    let st' := if d.allow && d.remember then
        { st with allowedPaths := addIfAbsent filePath st.allowedPaths } else st
    ⟨d.allow, if d.allow then none else deniedReason, true, st'⟩

/-- `checkFileWrite`, with its two duplicated auto-edit branches kept as in
the source. -/
def checkFileWrite (cfg : PermConfig) (prompt : PromptFn) (st : PermState)
    (filePath : String) : CheckResult :=
  if cfg.approvalMode = .autoEdit ∧ isPathAllowed cfg st filePath then ⟨true, none, false, st⟩
  else if isPathAllowed cfg st filePath ∧ cfg.approvalMode = .autoEdit then ⟨true, none, false, st⟩
  else
    let d := prompt (.fileWrite filePath)
    let st' := if d.allow && d.remember then
        { st with allowedPaths := addIfAbsent filePath st.allowedPaths } else st
    ⟨d.allow, if d.allow then none else deniedReason, true, st'⟩

/-- `command.split(/\s+/)[0]`: the text before the first whitespace run. -/
def firstToken (s : String) : String :=
  String.mk (s.toList.takeWhile (fun c => ¬ c.isWhitespace))

/-- `command.split('\n')[0].trim()`. -/
def firstLine (s : String) : String :=
  jsTrim (String.mk (s.toList.takeWhile (fun c => c ≠ '\n')))

def safeCommands : List String :=
  ["ls", "pwd", "echo", "cat", "head", "tail", "wc",
   "date", "whoami", "which", "type", "file",
   "git status", "git diff", "git log", "git branch"]

def checkBashExecute (_cfg : PermConfig) (prompt : PromptFn) (st : PermState)
    (command : String) : CheckResult :=
  let tok := firstToken command
  if st.allowedCommands.contains tok then ⟨true, none, false, st⟩
  else if safeCommands.contains tok || safeCommands.contains (firstLine command) then
    ⟨true, none, false, st⟩
  else
    let d := prompt (.bashExecute command)
    let st' := if d.allow && d.remember then
        { st with allowedCommands := addIfAbsent tok st.allowedCommands } else st
    ⟨d.allow, if d.allow then none else deniedReason, true, st'⟩

def checkWebFetch (cfg : PermConfig) (prompt : PromptFn) (st : PermState)
    (url : String) : CheckResult :=
  match cfg.parseHostname url with
  | none => ⟨false, some "Invalid URL", false, st⟩
  | some host =>
    if st.allowedUrls.contains host then ⟨true, none, false, st⟩
    else
      let d := prompt (.webFetch url)
      let st' := if d.allow && d.remember then
          { st with allowedUrls := addIfAbsent host st.allowedUrls } else st
      ⟨d.allow, if d.allow then none else deniedReason, true, st'⟩

/-- `DefaultPermissionManager.checkPermission`. -/
def checkPermission (cfg : PermConfig) (prompt : PromptFn) (st : PermState)
    (a : PermAction) : CheckResult :=
  if cfg.approvalMode = .fullAuto then ⟨true, none, false, st⟩
  else
    match a with
    | .fileRead p => checkFileRead cfg prompt st p
    | .fileWrite p => checkFileWrite cfg prompt st p
    | .fileEdit p => checkFileWrite cfg prompt st p
    | .bashExecute c => checkBashExecute cfg prompt st c
    | .webFetch u => checkWebFetch cfg prompt st u
    | .otherAction => ⟨false, some "Unknown action type", false, st⟩

/-! ## Agent loop and tool dispatch (`src/core/agent.ts`)

`Agent.run` drives up to `maxIterations = 20` turns; each turn consumes the
provider's canonical stream (`getCompletion`) and, when tool calls were
proposed, dispatches them in order (`executeToolCalls`).  A capability's
`execute` either resolves to a `ToolResult` or throws, modelled by
`ExecOutcome`.  The provider is modelled by a script giving the canonical
stream of each turn (out-of-scope vendor wire handling is behind the
canonical event contract).  The trace records, in program order, the live
callback invocations together with the two internal actions the temporal
claims talk about: the start of a provider request and the start of a
`tool.execute` dispatch. -/

inductive Role where
  | user
  | assistant
  | system
  | tool
deriving DecidableEq, Repr

structure ToolCall where
  id : String
  name : String
  args : Json
deriving Repr

structure Message where
  role : Role
  content : String
  toolCallId : Option String := none
  toolCalls : Option (List ToolCall) := none
deriving Repr

structure ToolResult where
  success : Bool
  output : String
  error : Option String := none
deriving Repr

inductive ExecOutcome where
  | ok (r : ToolResult)
  | exn (msg : String)
deriving Repr

structure ToolSpec where
  name : String
  exec : Json → ExecOutcome

inductive StreamChunk where
  | text (content : String)
  | toolCall (tc : ToolCall)
  | toolCallDelta (delta : String)
  | done
  | error (msg : String)
deriving Repr

inductive AgentEvent where
  | providerRequest
  | dispatch (id : String)
  | permRequest (id : String)
  | cbText (s : String)
  | cbToolCallStart (tc : ToolCall)
  | cbToolCallEnd (tc : ToolCall) (result : String)
  | cbError (msg : String)
  | cbDone
deriving Repr

/-- `Agent.toolNeedsApproval`. -/
def readOnlyTools : List String := ["read_file", "glob", "grep"]

def dangerousTools : List String := ["write_file", "edit_file", "bash"]

def toolNeedsApproval (mode : ApprovalMode) (toolName : String) (_args : Json) : Bool :=
  if mode = .suggest ∧ readOnlyTools.contains toolName then false
  else if dangerousTools.contains toolName then true
  else false

def deniedText : String := "Tool execution denied by user"

def renderResult (r : ToolResult) : String :=
  if r.success then r.output
  else "Error: " ++ r.error.getD "undefined" ++ "\n" ++ r.output

/-- The `tool.execute` call of one resolved tool call, with the surrounding
try/catch of `executeToolCalls`. -/
def execResolved (tool : ToolSpec) (tc : ToolCall) : Message × List AgentEvent :=
  match tool.exec tc.args with
  | .ok r =>
    let content := renderResult r
    ({ role := .tool, content := content, toolCallId := some tc.id },
     [.dispatch tc.id, .cbToolCallEnd tc content])
  | .exn m =>
    let content := "Tool execution failed: " ++ m
    ({ role := .tool, content := content, toolCallId := some tc.id },
     [.dispatch tc.id, .cbToolCallEnd tc content])

/-- The body of `executeToolCalls` for one proposed call: resolve by exact
name, gate through the approval callback when one is installed, the mode is
not full-auto and `toolNeedsApproval` holds, then execute. -/
def execOneToolCall (tools : List ToolSpec) (mode : ApprovalMode)
    (permReq : Option (ToolCall → PermDecision)) (tc : ToolCall) :
    Message × List AgentEvent :=
  match tools.find? (fun t => t.name = tc.name) with
  | none =>
    let res := "Tool not found: " ++ tc.name
    ({ role := .tool, content := res, toolCallId := some tc.id },
     [.cbToolCallEnd tc res])
  | some tool =>
    match permReq with
    | some ask =>
      if mode ≠ .fullAuto ∧ toolNeedsApproval mode tc.name tc.args then
        if (ask tc).allow then
          ((execResolved tool tc).1, .permRequest tc.id :: (execResolved tool tc).2)
        else
          ({ role := .tool, content := deniedText, toolCallId := some tc.id },
           [.permRequest tc.id, .cbToolCallEnd tc deniedText])
      else execResolved tool tc
    | none => execResolved tool tc

/-- `Agent.executeToolCalls`: dispatch the proposed calls strictly in order,
appending one tool message per call. -/
def executeToolCalls (tools : List ToolSpec) (mode : ApprovalMode)
    (permReq : Option (ToolCall → PermDecision)) :
    List ToolCall → List Message × List AgentEvent
  | [] => ([], [])
  | tc :: rest =>
    let (m, evs) := execOneToolCall tools mode permReq tc
    let (ms, evs') := executeToolCalls tools mode permReq rest
    (m :: ms, evs ++ evs')

/-- `Agent.getCompletion`'s stream consumption: text chunks accumulate and
fire `onText` (when non-empty), tool-call chunks collect and fire
`onToolCallStart`, an error chunk throws (remaining chunks unprocessed), a
done chunk appends the assistant message.  Returns the updated history, the
events fired, the collected tool calls, and the thrown error if any. -/
def getCompletionAux : List StreamChunk → List Message → String → List ToolCall →
    List AgentEvent → List Message × List AgentEvent × List ToolCall × Option String
  | [], msgs, _, tcs, evs => (msgs, evs, tcs, none)
  | c :: cs, msgs, text, tcs, evs =>
    match c with
    | .text s =>
      if s ≠ "" then getCompletionAux cs msgs (text ++ s) tcs (evs ++ [.cbText s])
      else getCompletionAux cs msgs text tcs evs
    | .toolCall tc => getCompletionAux cs msgs text (tcs ++ [tc]) (evs ++ [.cbToolCallStart tc])
    | .toolCallDelta _ => getCompletionAux cs msgs text tcs evs
    | .error m => (msgs, evs, tcs, some m)
    | .done =>
      let msgs' :=
        if text ≠ "" ∨ ¬ tcs.isEmpty then
          msgs ++ [{ role := .assistant, content := text,
                     toolCalls := if ¬ tcs.isEmpty then some tcs else none }]
        else msgs
      getCompletionAux cs msgs' text tcs evs

def maxIterations : Nat := 20

/-- The while-loop of `Agent.run`.  `fuel` is only the termination device;
the loop condition is the source's `iterations < maxIterations` and the
invocation below supplies enough fuel for all 20 iterations.  Returns the
history, the trace and the final value of `iterations`. -/
def agentRunAux (script : List (List StreamChunk)) (tools : List ToolSpec)
    (mode : ApprovalMode) (permReq : Option (ToolCall → PermDecision)) :
    Nat → Nat → List Message → List AgentEvent →
    List Message × List AgentEvent × Nat
  | 0, iterations, msgs, evs => (msgs, evs, iterations)
  | fuel + 1, iterations, msgs, evs =>
    if iterations < maxIterations then
      let iterations' := iterations + 1
      let evs := evs ++ [.providerRequest]
      match getCompletionAux (script.getD iterations []) msgs "" [] [] with
      | (msgs', evs2, _, some m) => (msgs', evs ++ evs2 ++ [.cbError m], iterations')
      | (msgs', evs2, tcs, none) =>
        if tcs.isEmpty then (msgs', evs ++ evs2 ++ [.cbDone], iterations')
        else
          let (newMsgs, evs3) := executeToolCalls tools mode permReq tcs
          agentRunAux script tools mode permReq fuel iterations'
            (msgs' ++ newMsgs) (evs ++ evs2 ++ evs3)
    else (msgs, evs, iterations)

/-- `Agent.run` on a fresh history: append the user message, run the loop,
then report `Max iterations reached` when the final iteration count is at
the cap. -/
def agentRun (script : List (List StreamChunk)) (tools : List ToolSpec)
    (mode : ApprovalMode) (permReq : Option (ToolCall → PermDecision))
    (userMessage : String) : List Message × List AgentEvent × Nat :=
  let msgs0 : List Message := [{ role := .user, content := userMessage }]
  let (msgs, evs, iters) := agentRunAux script tools mode permReq maxIterations 0 msgs0 []
  if iters ≥ maxIterations then (msgs, evs ++ [.cbError "Max iterations reached"], iters)
  else (msgs, evs, iters)

/-! ### Cancellation layer (`src/ui/App.tsx`)

`cancelOperation` sets `cancelledRef.current`; each live callback installed
by the UI (`onText`, `onToolCallStart`, `onToolCallEnd`, `onError`,
`onDone`) returns early when the flag is set, while `Agent.run` itself never
reads the flag.  We model the moment of cancellation as a position in the
trace: events at or after `cancelTime` positions are suppressed when they
are live callbacks, and internal actions (provider requests, dispatches,
permission prompts) are unaffected because nothing in the loop consults the
flag. -/

def isLiveCallback : AgentEvent → Bool
  | .cbText _ => true
  | .cbToolCallStart _ => true
  | .cbToolCallEnd _ _ => true
  | .cbError _ => true
  | .cbDone => true
  | _ => false

def liveEvents (cancelTime : Nat) (evs : List AgentEvent) : List AgentEvent :=
  (evs.enum.filter (fun p => ¬ (isLiveCallback p.2 ∧ cancelTime ≤ p.1))).map (·.2)

/-! ## Structured provider adapters

`OpenAIProvider.chat` buffers incremental tool-call deltas in a `Map`
keyed by index (insertion-ordered, like a JS `Map`) and, at the chunk
carrying a `finish_reason`, emits one `tool_call` per buffered entry —
or an `error` chunk when `JSON.parse` of the accumulated arguments throws —
followed unconditionally by `done`.  `AnthropicProvider.chat` buffers one
current `tool_use` block and performs the same parse-or-error emission at
`content_block_stop`, with `done` at `message_stop`.  A provider-level
exception from the vendor stream is modelled as a trailing error
(`netError`). -/

structure ToolCallDeltaWire where
  index : Nat
  id : Option String
  name : Option String
  args : Option String
deriving Repr

structure OpenAIDelta where
  content : Option String
  toolCallDeltas : List ToolCallDeltaWire
deriving Repr

structure OpenAIChunk where
  delta : Option OpenAIDelta
  finishReason : Bool
deriving Repr

structure OAAccum where
  id : String
  name : String
  args : String
deriving Repr

def oaMapSetDefault (m : List (Nat × OAAccum)) (d : ToolCallDeltaWire) :
    List (Nat × OAAccum) :=
  if m.any (fun p => p.1 = d.index) then m
  else m ++ [(d.index, ⟨d.id.getD "", d.name.getD "", ""⟩)]

def oaMapUpdate (m : List (Nat × OAAccum)) (i : Nat) (f : OAAccum → OAAccum) :
    List (Nat × OAAccum) :=
  m.map (fun p => if p.1 = i then (p.1, f p.2) else p)

/-- Process one entry of `delta.tool_calls` (truthiness checks on the
optional fields follow the source's `if (toolCallDelta.id)` etc.). -/
def oaProcToolCallDelta (st : List (Nat × OAAccum) × List StreamChunk)
    (d : ToolCallDeltaWire) : List (Nat × OAAccum) × List StreamChunk :=
  let (m, outs) := st
  let m := oaMapSetDefault m d
  let m := oaMapUpdate m d.index (fun a =>
    let a := if d.id.getD "" ≠ "" then { a with id := d.id.getD "" } else a
    if d.name.getD "" ≠ "" then { a with name := d.name.getD "" } else a)
  if d.args.getD "" ≠ "" then
    (oaMapUpdate m d.index (fun a => { a with args := a.args ++ d.args.getD "" }),
     outs ++ [.toolCallDelta (d.args.getD "")])
  else (m, outs)

/-- `toolCall.arguments || '{}'` then `JSON.parse`. -/
def parseAccumArgs (args : String) : Option Json :=
  parseJson (if args = "" then "\x7b\x7d" else args)

/-- One buffered tool call at `finish_reason`: a `tool_call` when its
accumulated arguments parse, an `error` otherwise. -/
def oaEmitOne (p : Nat × OAAccum) : StreamChunk :=
  match parseAccumArgs p.2.args with
  | some j => StreamChunk.toolCall ⟨p.2.id, p.2.name, j⟩
  | none => StreamChunk.error ("Failed to parse tool arguments: " ++ p.2.args)

/-- Emission at `finish_reason`: the buffered tool calls in insertion order,
each a `tool_call` or an `error`, then `done`. -/
def oaEmitFinish (m : List (Nat × OAAccum)) : List StreamChunk :=
  m.map oaEmitOne ++ [StreamChunk.done]

def chatOpenAIAux : List OpenAIChunk → List (Nat × OAAccum) → List StreamChunk →
    List StreamChunk
  | [], _, outs => outs
  | c :: cs, m, outs =>
    match c.delta with
    | none => chatOpenAIAux cs m outs
    | some d =>
      let outs := if d.content.getD "" ≠ "" then outs ++ [.text (d.content.getD "")] else outs
      let (m, outs) := d.toolCallDeltas.foldl oaProcToolCallDelta (m, outs)
      let outs := if c.finishReason then outs ++ oaEmitFinish m else outs
      chatOpenAIAux cs m outs

/-- `OpenAIProvider.chat` as a function of the vendor chunk sequence; a
vendor-stream exception after those chunks is the `netError` case of the
surrounding try/catch. -/
def chatOpenAI (chunks : List OpenAIChunk) (netError : Option String) :
    List StreamChunk :=
  let outs := chatOpenAIAux chunks [] []
  match netError with
  | some e => outs ++ [.error e]
  | none => outs

inductive AnthropicEvent where
  | blockStartToolUse (id : String) (name : String)
  | blockStartOther
  | textDelta (s : String)
  | inputJsonDelta (s : String)
  | blockStop
  | messageStop
  | otherEvent
deriving Repr

structure AnthAccum where
  id : String
  name : String
  input : String
deriving Repr

def anthEmitStop (a : AnthAccum) : StreamChunk :=
  match parseAccumArgs a.input with
  | some j => .toolCall ⟨a.id, a.name, j⟩
  | none => .error ("Failed to parse tool arguments: " ++ a.input)

def chatAnthropicAux : List AnthropicEvent → Option AnthAccum → List StreamChunk →
    List StreamChunk
  | [], _, outs => outs
  | e :: es, cur, outs =>
    match e with
    | .blockStartToolUse id name => chatAnthropicAux es (some ⟨id, name, ""⟩) outs
    | .blockStartOther => chatAnthropicAux es cur outs
    | .textDelta s => chatAnthropicAux es cur (outs ++ [.text s])
    | .inputJsonDelta s =>
      match cur with
      | some a => chatAnthropicAux es (some { a with input := a.input ++ s })
          (outs ++ [.toolCallDelta s])
      | none => chatAnthropicAux es cur outs
    | .blockStop =>
      match cur with
      | some a => chatAnthropicAux es none (outs ++ [anthEmitStop a])
      | none => chatAnthropicAux es cur outs
    | .messageStop => chatAnthropicAux es cur (outs ++ [.done])
    | .otherEvent => chatAnthropicAux es cur outs

/-- `AnthropicProvider.chat` as a function of the vendor event sequence. -/
def chatAnthropic (events : List AnthropicEvent) (netError : Option String) :
    List StreamChunk :=
  let outs := chatAnthropicAux events none []
  match netError with
  | some e => outs ++ [.error e]
  | none => outs

/-! ## Prompt-based adapter: `OllamaProvider.extractToolCalls`

Three scan passes over the accumulated response text, in the source's
order: the fenced ```tool convention, the DeepSeek delimiter convention and
the `<function=...>` convention.  Each global-regex scan is modelled by a
candidate scanner built from leftmost substring search, mirroring the lazy
quantifiers: a candidate's payload runs to the first closing delimiter and
scanning resumes after the match.  Candidates whose payload does not parse
are skipped individually; candidates naming a capability outside the
registered tool set are dropped silently; surviving candidates are pushed
with locally generated `ollama_<now>_<k>` identifiers, `k` being the number
of calls pushed so far across all passes. -/

/-- Leftmost occurrence of `pat`: returns the text before it and the text
after it. -/
def findSub (pat : List Char) : List Char → Option (List Char × List Char)
  | [] => if pat.isEmpty then some ([], []) else none
  | c :: cs =>
    if pat.isPrefixOf (c :: cs) then some ([], (c :: cs).drop pat.length)
    else
      match findSub pat cs with
      | some (pre, rest) => some (c :: pre, rest)
      | none => none

/-- Candidates of the ```tool convention: payload between the opening
marker and the first closing fence. -/
def fenceToolCandidates : Nat → List Char → List String
  | 0, _ => []
  | fuel + 1, cs =>
    match findSub "```tool".toList cs with
    | none => []
    | some (_, afterOpen) =>
      match findSub "```".toList afterOpen with
      | none => []
      | some (payload, rest) => String.mk payload :: fenceToolCandidates fuel rest

/-- `toolData.tool && toolNames.has(toolData.tool)` and the
`toolData.arguments || {}` defaulting. -/
def procFenceCandidate (toolNames : List String) (payload : String) :
    Option (String × Json) :=
  match parseJson (jsTrim payload) with
  | none => none
  | some j =>
    match jsonField j "tool" with
    | some (Json.str t) =>
      if t ≠ "" ∧ toolNames.contains t then
        let args :=
          match jsonField j "arguments" with
          | some a => if jsTruthy a then a else Json.obj []
          | none => Json.obj []
        some (t, args)
      else none
    | _ => none

def isWordChar (c : Char) : Bool := c.isAlphanum || c = '_'

def dsBeginTok : String := "<｜tool▁call▁begin｜>function<｜tool▁sep｜>"

def dsEndTok : String := "<｜tool▁call▁end｜>"

/-- Candidates of the DeepSeek convention: `(name, trimmed args payload)`. -/
def dsCandidates : Nat → List Char → List (String × String)
  | 0, _ => []
  | fuel + 1, cs =>
    match findSub dsBeginTok.toList cs with
    | none => []
    | some (_, afterBegin) =>
      let nameChars := afterBegin.takeWhile isWordChar
      let afterName := afterBegin.dropWhile isWordChar
      if nameChars.isEmpty then dsCandidates fuel afterBegin
      else
        match findSub "```".toList afterName with
        | none => []
        | some (_, afterFence) =>
          let afterJson :=
            if "json".toList.isPrefixOf afterFence then afterFence.drop 4 else afterFence
          match findSub "```".toList afterJson with
          | none => []
          | some (payload, afterClose) =>
            match findSub dsEndTok.toList afterClose with
            | none => []
            | some (_, rest) =>
              (String.mk nameChars, jsTrim (String.mk payload)) :: dsCandidates fuel rest

/-- Candidates of the `<function=name>args</function>` convention. -/
def fnCandidates : Nat → List Char → List (String × String)
  | 0, _ => []
  | fuel + 1, cs =>
    match findSub "<function=".toList cs with
    | none => []
    | some (_, afterOpen) =>
      let nameChars := afterOpen.takeWhile isWordChar
      let afterName := afterOpen.dropWhile isWordChar
      if nameChars.isEmpty then fnCandidates fuel afterOpen
      else
        match afterName with
        | '>' :: body =>
          match findSub "</function>".toList body with
          | none => []
          | some (payload, rest) =>
            (String.mk nameChars, jsTrim (String.mk payload)) :: fnCandidates fuel rest
        | _ => fnCandidates fuel afterName

def pushCall (now : Nat) (acc : List ToolCall) (name : String) (args : Json) :
    List ToolCall :=
  acc ++ [⟨"ollama_" ++ toString now ++ "_" ++ toString acc.length, name, args⟩]

/-- Processing of a DeepSeek / `<function=...>` candidate: parse, then keep
only registered names. -/
def procNamedCandidate (now : Nat) (toolNames : List String)
    (acc : List ToolCall) (cand : String × String) : List ToolCall :=
  match parseJson cand.2 with
  | some args => if toolNames.contains cand.1 then pushCall now acc cand.1 args else acc
  | none => acc

/-- `OllamaProvider.extractToolCalls` (`Date.now()` is the `now`
parameter). -/
def extractToolCalls (now : Nat) (response : String) (tools : List ToolSpec) :
    List ToolCall :=
  let toolNames := tools.map (·.name)
  let cs := response.toList
  let acc := (fenceToolCandidates (cs.length + 1) cs).foldl
    (fun acc payload =>
      match procFenceCandidate toolNames payload with
      | some (t, args) => pushCall now acc t args
      | none => acc) []
  let acc := (dsCandidates (cs.length + 1) cs).foldl (procNamedCandidate now toolNames) acc
  (fnCandidates (cs.length + 1) cs).foldl (procNamedCandidate now toolNames) acc

/-! ## Spec-side definition for the refinement claim

`checkFileWriteSpec` follows the specification's words for the file-write
gate: granted without prompting iff the mode is auto-edit and the path is
already allowed (full-auto is short-circuited in `checkPermission` before
this is reached); in every other case the prompt is consulted.  It is to be
compared with `checkFileWrite`, which was translated from the source with
its duplicated branches. -/

def checkFileWriteSpec (cfg : PermConfig) (prompt : PromptFn) (st : PermState)
    (filePath : String) : CheckResult :=
  if cfg.approvalMode = .autoEdit ∧ isPathAllowed cfg st filePath then ⟨true, none, false, st⟩
  else
    let d := prompt (.fileWrite filePath)
    let st' := if d.allow && d.remember then
        { st with allowedPaths := addIfAbsent filePath st.allowedPaths } else st
    ⟨d.allow, if d.allow then none else deniedReason, true, st'⟩

/-! ## Observation helpers on traces and canonical streams -/

def countDoneEvents (evs : List AgentEvent) : Nat :=
  (evs.filter (fun e => match e with | .cbDone => true | _ => false)).length

def countCapReports (evs : List AgentEvent) : Nat :=
  (evs.filter (fun e => match e with
    | .cbError m => m == "Max iterations reached"
    | _ => false)).length

def countProviderRequests (evs : List AgentEvent) : Nat :=
  (evs.filter (fun e => match e with | .providerRequest => true | _ => false)).length

def countDispatches (evs : List AgentEvent) : Nat :=
  (evs.filter (fun e => match e with | .dispatch _ => true | _ => false)).length

def hasPermRequest (evs : List AgentEvent) : Bool :=
  evs.any (fun e => match e with | .permRequest _ => true | _ => false)

def isDoneChunk : StreamChunk → Bool
  | .done => true
  | _ => false

def isErrorChunk : StreamChunk → Bool
  | .error _ => true
  | _ => false

def countDoneChunks (cks : List StreamChunk) : Nat :=
  (cks.filter isDoneChunk).length

def hasErrorChunk (cks : List StreamChunk) : Bool :=
  cks.any isErrorChunk

/-! ## Concrete scenarios used by the evaluation theorems -/

def promptDenyAll : PromptFn := fun _ => ⟨false, false⟩

def askDenyAll : ToolCall → PermDecision := fun _ => ⟨false, false⟩

def c1cfg : PermConfig := ⟨.suggest, "/work", fun _ => none⟩

def homeCfg : PermConfig := ⟨.suggest, "/home/u", fun _ => none⟩

def tcBash0 : ToolCall := ⟨"id0", "bash", Json.obj [("command", Json.str "ls")]⟩

def script20 : List (List StreamChunk) :=
  List.replicate 19 [StreamChunk.toolCall tcBash0, StreamChunk.done] ++ [[StreamChunk.done]]

def webFetchTool : ToolSpec := ⟨"web_fetch", fun _ => .ok ⟨true, "fetched", none⟩⟩

def tcWebFetch : ToolCall := ⟨"wf1", "web_fetch", Json.obj [("url", Json.str "http://example.com")]⟩

def bashTool : ToolSpec := ⟨"bash", fun _ => .ok ⟨true, "ran", none⟩⟩

def tcRm : ToolCall := ⟨"b1", "bash", Json.obj [("command", Json.str "rm -rf /tmp/x")]⟩

def scriptDenyBash : List (List StreamChunk) :=
  [[StreamChunk.toolCall tcRm, StreamChunk.done],
   [StreamChunk.text "okay", StreamChunk.done]]

def readTool : ToolSpec := ⟨"read_file", fun _ => .ok ⟨true, "file-data", none⟩⟩

def tcRead : ToolCall := ⟨"r1", "read_file", Json.obj [("file_path", Json.str "a.txt")]⟩

def scriptCancel : List (List StreamChunk) :=
  [[StreamChunk.toolCall tcRead, StreamChunk.done], [StreamChunk.done]]

def ollamaTools : List ToolSpec :=
  [readTool, ⟨"glob", fun _ => .ok ⟨true, "files", none⟩⟩,
   ⟨"grep", fun _ => .ok ⟨true, "matches", none⟩⟩]

def twoBlockText : String :=
  "I will read the file.\n```tool\n\x7b\"tool\": \"read_file\", \"arguments\": \x7b\"file_path\": \"src/index.ts\"\x7d\x7d\n```\nand also\n```tool\n\x7b\"tool\": \"delete_universe\", \"arguments\": \x7b\x7d\x7d\n```\ndone."

def malformedFirstText : String :=
  "```tool\n\x7b\"tool\": \"read_file\", \n```\nthen\n```tool\n\x7b\"tool\": \"read_file\", \"arguments\": \x7b\"file_path\": \"a.txt\"\x7d\x7d\n```"

def proseText : String := "Just some prose, no invocation blocks at all."

def oaChunksBadArgs : List OpenAIChunk :=
  [⟨some ⟨none, [⟨0, some "call_1", some "write_file", some "\x7b"⟩]⟩, false⟩,
   ⟨some ⟨none, []⟩, true⟩]

def anthEventsBadArgs : List AnthropicEvent :=
  [.blockStartToolUse "toolu_1" "write_file", .inputJsonDelta "\x7b",
   .blockStop, .messageStop]

/-! ## Theorems -/

/-- C1: for a permission gate not in full-auto mode, path allow-list matching
is claimed to respect directory boundaries: `/work` should grant
`/work/file.txt` and not grant `/workshop/file.txt`.  Evaluating the
embedded `isPathAllowed` and `checkPermission` shows that with working
directory `/work` the path `/work/file.txt` is matched as claimed, but
`/workshop/file.txt` is ALSO matched and granted without consulting the
prompt, because the working-directory branch checks a bare string prefix
(`startsWith(workingDirectory)` with no `/` boundary).  The last conjunct
shows the allow-list-entry loop itself is boundary-respecting (an entry
`/work` that is not the working directory does not match
`/workshop/file.txt`), isolating the slip to the working-directory
branch. -/
theorem c1_working_directory_boundary_eval :
    isPathAllowed c1cfg (initPermState "/work") "/work/file.txt" = true
    ∧ isPathAllowed c1cfg (initPermState "/work") "/workshop/file.txt" = true
    ∧ (checkPermission c1cfg promptDenyAll (initPermState "/work")
        (.fileRead "/workshop/file.txt")).granted = true
    ∧ (checkPermission c1cfg promptDenyAll (initPermState "/work")
        (.fileRead "/workshop/file.txt")).prompted = false
    ∧ isPathAllowed homeCfg ⟨["/home/u", "/work"], [], []⟩ "/workshop/file.txt" = false :=
  ⟨rfl, rfl, rfl, rfl, rfl⟩

/-- C9: the duplicated-branch `checkFileWrite` is extensionally equal to the
single-condition `checkFileWriteSpec`; `checkPermission` on a write or edit
action is granted without consulting the prompt iff the mode is full-auto,
or the mode is auto-edit and the path is already allowed; in every other
case the prompt is consulted; edit actions behave identically to write
actions. -/
theorem c9_file_write_gate_refinement :
    ∀ (cfg : PermConfig) (prompt : PromptFn) (st : PermState) (p : String),
      checkFileWrite cfg prompt st p = checkFileWriteSpec cfg prompt st p
      ∧ (((checkPermission cfg prompt st (.fileWrite p)).granted = true ∧
          (checkPermission cfg prompt st (.fileWrite p)).prompted = false) ↔
         (cfg.approvalMode = .fullAuto ∨
          (cfg.approvalMode = .autoEdit ∧ isPathAllowed cfg st p = true)))
      ∧ checkPermission cfg prompt st (.fileEdit p) = checkPermission cfg prompt st (.fileWrite p)
      ∧ (¬ (cfg.approvalMode = .fullAuto ∨
            (cfg.approvalMode = .autoEdit ∧ isPathAllowed cfg st p = true)) →
         (checkPermission cfg prompt st (.fileWrite p)).prompted = true) := by
  intro cfg prompt st p
  cases hm : cfg.approvalMode <;>
    cases hpa : isPathAllowed cfg st p <;>
      simp [checkPermission, checkFileWrite, checkFileWriteSpec, hm, hpa]

/-- C9 witness: the refinement theorem applied at a concrete auto-edit
configuration whose path is under the working directory. -/
theorem c9_file_write_gate_refinement_witness :
    checkFileWrite ⟨.autoEdit, "/work", fun _ => none⟩ promptDenyAll
        (initPermState "/work") "/work/a.txt"
      = checkFileWriteSpec ⟨.autoEdit, "/work", fun _ => none⟩ promptDenyAll
        (initPermState "/work") "/work/a.txt"
    ∧ (checkPermission ⟨.autoEdit, "/work", fun _ => none⟩ promptDenyAll
        (initPermState "/work") (.fileWrite "/work/a.txt")).granted = true
    ∧ (checkPermission ⟨.autoEdit, "/work", fun _ => none⟩ promptDenyAll
        (initPermState "/work") (.fileWrite "/work/a.txt")).prompted = false := by
  have h := c9_file_write_gate_refinement ⟨.autoEdit, "/work", fun _ => none⟩
    promptDenyAll (initPermState "/work") "/work/a.txt"
  exact ⟨h.1, (h.2.1.mpr (Or.inr ⟨rfl, rfl⟩)).1, (h.2.1.mpr (Or.inr ⟨rfl, rfl⟩)).2⟩

/-- C10: a prompt decision that denies, or allows without remember, never
mutates the allow-lists, so the same check repeated from the resulting state
returns the same result; and under an always-deny prompt, any check that
consulted the prompt returns denial.  Memoization can therefore only happen
when the prompt returns allow and remember. -/
theorem c10_denied_check_no_memoization :
    ∀ (cfg : PermConfig) (prompt : PromptFn) (st : PermState) (a : PermAction),
      (∀ x, (prompt x).allow = false ∨ (prompt x).remember = false) →
      (checkPermission cfg prompt st a).state = st
      ∧ checkPermission cfg prompt ((checkPermission cfg prompt st a).state) a
          = checkPermission cfg prompt st a
      ∧ ((∀ x, prompt x = ⟨false, false⟩) →
          (checkPermission cfg prompt st a).prompted = true →
          (checkPermission cfg prompt st a).granted = false) := by
  intro cfg prompt st a h
  have hb : ∀ x, ((prompt x).allow && (prompt x).remember) = false := fun x => by
    rcases h x with h1 | h1 <;> simp [h1]
  have hstate : (checkPermission cfg prompt st a).state = st := by
    unfold checkPermission checkFileRead checkFileWrite checkBashExecute checkWebFetch
    split
    · rfl
    · cases a <;> simp [hb] <;> (repeat' split) <;> rfl
  refine ⟨hstate, by rw [hstate], ?_⟩
  intro hp
  unfold checkPermission checkFileRead checkFileWrite checkBashExecute checkWebFetch
  split
  · simp
  · cases a <;> simp [hp] <;> (repeat' split) <;> simp

/-- C10 witness: two successive bash-execute checks for `rm -rf /tmp/x`
under an always-deny, never-remember prompt leave the state untouched and
both return denial. -/
theorem c10_denied_check_no_memoization_witness :
    (checkPermission c1cfg promptDenyAll (initPermState "/work")
      (.bashExecute "rm -rf /tmp/x")).state = initPermState "/work"
    ∧ checkPermission c1cfg promptDenyAll
        ((checkPermission c1cfg promptDenyAll (initPermState "/work")
          (.bashExecute "rm -rf /tmp/x")).state) (.bashExecute "rm -rf /tmp/x")
        = checkPermission c1cfg promptDenyAll (initPermState "/work")
            (.bashExecute "rm -rf /tmp/x")
    ∧ (checkPermission c1cfg promptDenyAll (initPermState "/work")
        (.bashExecute "rm -rf /tmp/x")).granted = false := by
  have h := c10_denied_check_no_memoization c1cfg promptDenyAll (initPermState "/work")
    (.bashExecute "rm -rf /tmp/x") (fun _ => Or.inl rfl)
  exact ⟨h.1, h.2.1, h.2.2 (fun _ => rfl) rfl⟩

/-- Helper: the loop counter of `agentRunAux` never exceeds the cap. -/
theorem agentRunAux_iters_le (script : List (List StreamChunk)) (tools : List ToolSpec)
    (mode : ApprovalMode) (permReq : Option (ToolCall → PermDecision)) :
    ∀ (fuel iterations : Nat) (msgs : List Message) (evs : List AgentEvent),
      iterations ≤ maxIterations →
      (agentRunAux script tools mode permReq fuel iterations msgs evs).2.2 ≤ maxIterations := by
  intro fuel
  induction fuel with
  | zero => intro iterations msgs evs h; simpa [agentRunAux] using h
  | succ n ih =>
    intro iterations msgs evs h
    simp only [agentRunAux]
    split
    · rename_i hlt
      split
      · simpa using hlt
      · split
        · simpa using hlt
        · exact ih _ _ _ hlt
    · simpa using h

/-- C2 (amended): the iteration count never exceeds the cap of 20; the run
appends the report `Max iterations reached` exactly once iff the loop's
final iteration count equals the cap — including when the 20th iteration
itself ended with Done or a provider error — and never appends it when the
loop exited with fewer than 20 iterations. -/
theorem c2_iteration_cap :
    ∀ (script : List (List StreamChunk)) (tools : List ToolSpec) (mode : ApprovalMode)
      (permReq : Option (ToolCall → PermDecision)) (u : String),
      (agentRun script tools mode permReq u).2.2 ≤ maxIterations
      ∧ ((agentRunAux script tools mode permReq maxIterations 0
            [{ role := .user, content := u }] []).2.2 < maxIterations →
          (agentRun script tools mode permReq u).2.1 =
            (agentRunAux script tools mode permReq maxIterations 0
              [{ role := .user, content := u }] []).2.1)
      ∧ ((agentRunAux script tools mode permReq maxIterations 0
            [{ role := .user, content := u }] []).2.2 = maxIterations →
          (agentRun script tools mode permReq u).2.1 =
            (agentRunAux script tools mode permReq maxIterations 0
              [{ role := .user, content := u }] []).2.1
              ++ [.cbError "Max iterations reached"]) := by
  intro script tools mode permReq u
  rcases hr : agentRunAux script tools mode permReq maxIterations 0
      [{ role := .user, content := u }] [] with ⟨msgs, evs, iters⟩
  have hle : iters ≤ maxIterations := by
    have h := agentRunAux_iters_le script tools mode permReq maxIterations 0
      [{ role := .user, content := u }] [] (by omega)
    rw [hr] at h
    exact h
  refine ⟨?_, ?_, ?_⟩ <;> simp only [agentRun, hr]
  · split <;> simpa using hle
  · intro hlt
    rw [if_neg (by omega)]
  · intro heq
    rw [if_pos (by omega)]

/-- C2 witness: the amended theorem applied to the concrete 20-iteration
script, whose loop count is exactly the cap. -/
theorem c2_iteration_cap_witness :
    (agentRun script20 [] .suggest none "go").2.1 =
      (agentRunAux script20 [] .suggest none maxIterations 0
        [{ role := .user, content := "go" }] []).2.1
        ++ [.cbError "Max iterations reached"] := by
  have h := c2_iteration_cap script20 [] .suggest none "go"
  exact h.2.2 rfl

/-- C2 counterexample to the claim as stated: a conversation whose provider
proposes tool calls for 19 iterations and finishes with Done on the 20th
never exceeds the cap and terminates normally, yet the run reports both
`onDone` and `Max iterations reached`, so a run that terminates normally at
the cap does produce the cap-exceeded report. -/
theorem c2_done_at_cap_counterexample :
    countDoneEvents (agentRun script20 [] .suggest none "go").2.1 = 1
    ∧ countCapReports (agentRun script20 [] .suggest none "go").2.1 = 1
    ∧ (agentRun script20 [] .suggest none "go").2.2 = 20 :=
  ⟨rfl, rfl, rfl⟩

/-- Helper: every branch of the per-call dispatch produces a tool-role
message correlated to the proposal's id. -/
theorem execOneToolCall_msg_shape (tools : List ToolSpec) (mode : ApprovalMode)
    (permReq : Option (ToolCall → PermDecision)) (tc : ToolCall) :
    (execOneToolCall tools mode permReq tc).1.toolCallId = some tc.id
    ∧ (execOneToolCall tools mode permReq tc).1.role = .tool := by
  have hres : ∀ tool : ToolSpec, (execResolved tool tc).1.toolCallId = some tc.id
      ∧ (execResolved tool tc).1.role = .tool := by
    intro tool
    unfold execResolved
    split <;> simp
  unfold execOneToolCall
  split
  · simp
  · split
    · split
      · split
        · simpa using hres _
        · simp
      · simpa using hres _
    · simpa using hres _

/-- C8: within a turn, the tool messages produced by `executeToolCalls`
are in bijection with the proposed calls: one message per proposal, in
proposal order, each with role `tool` and `toolCallId` equal to the
proposal's id. -/
theorem c8_tool_results_in_proposal_order :
    ∀ (tools : List ToolSpec) (mode : ApprovalMode)
      (permReq : Option (ToolCall → PermDecision)) (tcs : List ToolCall),
      (executeToolCalls tools mode permReq tcs).1.map (fun m => m.toolCallId)
        = tcs.map (fun tc => some tc.id)
      ∧ (∀ m ∈ (executeToolCalls tools mode permReq tcs).1, m.role = .tool) := by
  intro tools mode permReq tcs
  induction tcs with
  | nil => simp [executeToolCalls]
  | cons tc rest ih =>
    have h1 := execOneToolCall_msg_shape tools mode permReq tc
    simp only [executeToolCalls]
    constructor
    · simp [h1.1, ih.1]
    · intro m hm
      simp only [List.mem_cons] at hm
      rcases hm with rfl | hm
      · exact h1.2
      · exact ih.2 m hm

/-- C8 witness: the theorem applied to a concrete two-proposal turn (one
resolvable call, one unknown name): two messages, in order, with the
proposals' ids. -/
theorem c8_tool_results_in_proposal_order_witness :
    (executeToolCalls [readTool] .suggest none [tcRead, tcWebFetch]).1.map
        (fun m => m.toolCallId) = [some "r1", some "wf1"]
    ∧ ({ role := .tool, content := "file-data", toolCallId := some "r1" } :
        Message).role = .tool := by
  have h := c8_tool_results_in_proposal_order [readTool] .suggest none [tcRead, tcWebFetch]
  exact ⟨h.1, h.2 { role := .tool, content := "file-data", toolCallId := some "r1" }
    (by exact List.mem_cons_self _ _)⟩

/-- C5: no capability failure is fatal to the loop.  An unresolved name
yields the synthesized not-found message; a denied approval yields the fixed
denial text; an exception from `execute` yields the failure message carrying
the exception's message; dispatch always continues with the remaining calls;
and the end-to-end suggest-mode scenario (denied `bash rm -rf /tmp/x`)
records the denial in history and proceeds to the next turn, ending with
Done. -/
theorem c5_capability_failures_nonfatal :
    (∀ (tools : List ToolSpec) (mode : ApprovalMode)
       (permReq : Option (ToolCall → PermDecision)) (tc : ToolCall),
       tools.find? (fun t => t.name = tc.name) = none →
       execOneToolCall tools mode permReq tc =
         ({ role := .tool, content := "Tool not found: " ++ tc.name, toolCallId := some tc.id },
          [.cbToolCallEnd tc ("Tool not found: " ++ tc.name)]))
    ∧ (∀ (tools : List ToolSpec) (mode : ApprovalMode) (ask : ToolCall → PermDecision)
         (tc : ToolCall) (tool : ToolSpec),
       tools.find? (fun t => t.name = tc.name) = some tool → mode ≠ .fullAuto →
       toolNeedsApproval mode tc.name tc.args = true → (ask tc).allow = false →
       execOneToolCall tools mode (some ask) tc =
         ({ role := .tool, content := deniedText, toolCallId := some tc.id },
          [.permRequest tc.id, .cbToolCallEnd tc deniedText]))
    ∧ (∀ (tools : List ToolSpec) (mode : ApprovalMode) (tc : ToolCall) (tool : ToolSpec)
         (m : String),
       tools.find? (fun t => t.name = tc.name) = some tool → tool.exec tc.args = .exn m →
       execOneToolCall tools mode none tc =
         ({ role := .tool, content := "Tool execution failed: " ++ m, toolCallId := some tc.id },
          [.dispatch tc.id, .cbToolCallEnd tc ("Tool execution failed: " ++ m)]))
    ∧ (∀ (tools : List ToolSpec) (mode : ApprovalMode)
         (permReq : Option (ToolCall → PermDecision)) (tc : ToolCall) (rest : List ToolCall),
       executeToolCalls tools mode permReq (tc :: rest) =
         ((execOneToolCall tools mode permReq tc).1 :: (executeToolCalls tools mode permReq rest).1,
          (execOneToolCall tools mode permReq tc).2 ++ (executeToolCalls tools mode permReq rest).2))
    ∧ agentRun scriptDenyBash [bashTool] .suggest (some askDenyAll) "please clean up" =
        ([{ role := .user, content := "please clean up" },
          { role := .assistant, content := "", toolCalls := some [tcRm] },
          { role := .tool, content := deniedText, toolCallId := some "b1" },
          { role := .assistant, content := "okay" }],
         [.providerRequest, .cbToolCallStart tcRm, .permRequest "b1",
          .cbToolCallEnd tcRm deniedText, .providerRequest, .cbText "okay", .cbDone], 2) := by
  refine ⟨?_, ?_, ?_, ?_, rfl⟩
  · intro tools mode permReq tc h
    simp [execOneToolCall, h]
  · intro tools mode ask tc tool hfind hm hneeds hd
    simp [execOneToolCall, hfind, hm, hneeds, hd]
  · intro tools mode tc tool m hfind hexn
    simp [execOneToolCall, execResolved, hfind, hexn]
  · intro tools mode permReq tc rest
    simp [executeToolCalls]

/-- C5 witness: the denial branch applied to the concrete `bash` proposal
with the deny-all approval callback. -/
theorem c5_capability_failures_nonfatal_witness :
    execOneToolCall [bashTool] .suggest (some askDenyAll) tcRm =
      ({ role := .tool, content := deniedText, toolCallId := some "b1" },
       [.permRequest "b1", .cbToolCallEnd tcRm deniedText]) := by
  have h := c5_capability_failures_nonfatal
  exact h.2.1 [bashTool] .suggest askDenyAll tcRm bashTool rfl (by simp) rfl rfl

/-- Helper: `toolNeedsApproval` coincides with membership in the dangerous
list in every mode — the suggest-mode read-only bypass is subsumed because
the read-only and dangerous name lists are disjoint, and every other name
falls through to `false`. -/
theorem toolNeedsApproval_eq_dangerous :
    ∀ (mode : ApprovalMode) (name : String) (args : Json),
      toolNeedsApproval mode name args = dangerousTools.contains name := by
  intro mode name args
  unfold toolNeedsApproval
  by_cases hro : name ∈ readOnlyTools
  · have hd : dangerousTools.contains name = false := by
      fin_cases hro <;> rfl
    have hro' : readOnlyTools.contains name = true := List.elem_iff.mpr hro
    cases mode <;> simp [hro', hd]
    intro hm
    exfalso
    have h2 : dangerousTools.contains name = true := List.elem_iff.mpr hm
    rw [h2] at hd
    cases hd
  · have h1 : readOnlyTools.contains name = false := by
      cases hc : readOnlyTools.contains name with
      | false => rfl
      | true => exact absurd (List.elem_iff.mp hc) hro
    cases hd : dangerousTools.contains name <;> cases mode <;> simp [h1, hd]
    exact hro

/-- C3 counterexample: in suggest mode, with a deny-everything approval
callback installed, a proposed `web_fetch` call is classified as not
needing approval and executes (its dispatch happens and its success output
becomes the tool message) without any permission request, contradicting the
claim that every non-read-only capability requires an approval decision
outside full-auto. -/
theorem c3_web_fetch_executes_without_approval :
    toolNeedsApproval .suggest "web_fetch" (Json.obj [("url", Json.str "http://example.com")])
      = false
    ∧ execOneToolCall [webFetchTool] .suggest (some askDenyAll) tcWebFetch =
        ({ role := .tool, content := "fetched", toolCallId := some "wf1" },
         [.dispatch "wf1", .cbToolCallEnd tcWebFetch "fetched"])
    ∧ hasPermRequest (execOneToolCall [webFetchTool] .suggest (some askDenyAll) tcWebFetch).2
        = false :=
  ⟨rfl, rfl, rfl⟩

/-- C3 (amended): with an approval callback installed and outside full-auto,
a resolved proposed call is routed through the approval decision iff its
name is `write_file`, `edit_file` or `bash`; read-only built-ins and every
other capability name — including `web_fetch` and externally sourced
tools — execute without an approval decision, and without a callback
nothing is gated. -/
theorem c3_approval_scope :
    (∀ (mode : ApprovalMode) (name : String) (args : Json),
       toolNeedsApproval mode name args = dangerousTools.contains name)
    ∧ (∀ (tools : List ToolSpec) (mode : ApprovalMode) (ask : ToolCall → PermDecision)
         (tc : ToolCall) (tool : ToolSpec),
       tools.find? (fun t => t.name = tc.name) = some tool → mode ≠ .fullAuto →
       hasPermRequest (execOneToolCall tools mode (some ask) tc).2
         = dangerousTools.contains tc.name)
    ∧ (∀ (tools : List ToolSpec) (mode : ApprovalMode) (tc : ToolCall),
       hasPermRequest (execOneToolCall tools mode none tc).2 = false) := by
  have hresolved : ∀ (tool : ToolSpec) (tc : ToolCall),
      hasPermRequest (execResolved tool tc).2 = false := by
    intro tool tc
    unfold execResolved
    split <;> rfl
  refine ⟨toolNeedsApproval_eq_dangerous, ?_, ?_⟩
  · intro tools mode ask tc tool hfind hm
    simp only [execOneToolCall, hfind]
    rw [← toolNeedsApproval_eq_dangerous mode tc.name tc.args]
    by_cases hn : toolNeedsApproval mode tc.name tc.args = true
    · rw [if_pos ⟨hm, hn⟩, hn]
      split
      · simp [hasPermRequest]
      · simp [hasPermRequest]
    · rw [if_neg (fun hc => hn hc.2)]
      rw [hresolved tool tc]
      simp only [Bool.not_eq_true] at hn
      rw [hn]
  · intro tools mode tc
    unfold execOneToolCall
    split
    · rfl
    · exact hresolved _ _

/-- C3 witness: the amended theorem applied to a resolved `bash` proposal in
suggest mode — it is routed through the approval decision. -/
theorem c3_approval_scope_witness :
    hasPermRequest (execOneToolCall [bashTool] .suggest (some askDenyAll) tcRm).2 = true := by
  have h := c3_approval_scope.2.1 [bashTool] .suggest askDenyAll tcRm bashTool rfl (by simp)
  simpa using h

/-- C6: evaluation at the failing input.  Cancellation is raised immediately
after the first provider request (cancel position 1).  The in-flight part of
the claim holds: the tool execution finishes, its result is recorded into
history, and its live `onToolCallEnd` callback (like all later callbacks)
is suppressed.  But the loop itself never observes the flag: the trace
strictly after the cancellation point still contains the tool dispatch and
a further provider request, so new dispatches and provider requests do
begin after cancellation. -/
theorem c6_cancellation_only_suppresses_callbacks :
    agentRun scriptCancel [readTool] .suggest (some askDenyAll) "go" =
      ([{ role := .user, content := "go" },
        { role := .assistant, content := "", toolCalls := some [tcRead] },
        { role := .tool, content := "file-data", toolCallId := some "r1" }],
       [.providerRequest, .cbToolCallStart tcRead, .dispatch "r1",
        .cbToolCallEnd tcRead "file-data", .providerRequest, .cbDone], 2)
    ∧ liveEvents 1 [.providerRequest, .cbToolCallStart tcRead, .dispatch "r1",
        .cbToolCallEnd tcRead "file-data", .providerRequest, .cbDone] =
      [.providerRequest, .dispatch "r1", .providerRequest]
    ∧ countDispatches ([AgentEvent.providerRequest, .cbToolCallStart tcRead, .dispatch "r1",
        .cbToolCallEnd tcRead "file-data", .providerRequest, .cbDone].drop 1) = 1
    ∧ countProviderRequests ([AgentEvent.providerRequest, .cbToolCallStart tcRead,
        .dispatch "r1", .cbToolCallEnd tcRead "file-data", .providerRequest,
        .cbDone].drop 1) = 1 :=
  ⟨rfl, rfl, rfl, rfl⟩

/-- Helper: the per-entry finish emission is never a done chunk. -/
theorem oaEmitOne_not_done (p : Nat × OAAccum) : isDoneChunk (oaEmitOne p) = false := by
  unfold oaEmitOne
  split <;> rfl

/-- Helper: the per-entry finish emission is an error chunk exactly when the
accumulated arguments fail to parse. -/
theorem oaEmitOne_error_iff (p : Nat × OAAccum) :
    isErrorChunk (oaEmitOne p) = true ↔ parseAccumArgs p.2.args = none := by
  unfold oaEmitOne
  cases h : parseAccumArgs p.2.args <;> simp [h, isErrorChunk]

/-- C4 counterexample to the claim as stated: a structured-variant stream
whose only tool call accumulates the unparsable argument payload `{` emits
an Error chunk for it and then still ends with Done — for both the OpenAI
and the Anthropic adapter — so the canonical stream emits both Error and
Done. -/
theorem c4_parse_failure_emits_error_then_done :
    chatOpenAI oaChunksBadArgs none =
      [.toolCallDelta "\x7b", .error "Failed to parse tool arguments: \x7b", .done]
    ∧ chatAnthropic anthEventsBadArgs none =
      [.toolCallDelta "\x7b", .error "Failed to parse tool arguments: \x7b", .done]
    ∧ hasErrorChunk (chatOpenAI oaChunksBadArgs none) = true
    ∧ (chatOpenAI oaChunksBadArgs none).getLast? = some .done :=
  ⟨rfl, rfl, rfl, rfl⟩

/-- C4 (amended): the finish emission of the OpenAI adapter always ends
with exactly one Done, and contains an Error iff some buffered tool call's
arguments fail to parse — a parse failure yields a non-terminal Error
followed by the terminal Done, it is never silently dropped; a
provider-level failure appends a terminal Error after the chunks emitted so
far; the Anthropic adapter behaves the same at `content_block_stop`
(tool-call or error per parse outcome) and `message_stop` (Done). -/
theorem c4_stream_termination :
    (∀ m : List (Nat × OAAccum), (oaEmitFinish m).getLast? = some .done)
    ∧ (∀ m : List (Nat × OAAccum), countDoneChunks (oaEmitFinish m) = 1)
    ∧ (∀ m : List (Nat × OAAccum),
        (hasErrorChunk (oaEmitFinish m) = true ↔ ∃ p ∈ m, parseAccumArgs p.2.args = none))
    ∧ (∀ (chunks : List OpenAIChunk) (e : String),
        chatOpenAI chunks (some e) = chatOpenAI chunks none ++ [.error e])
    ∧ (∀ a : AnthAccum, parseAccumArgs a.input = none →
        anthEmitStop a = .error ("Failed to parse tool arguments: " ++ a.input))
    ∧ (∀ (a : AnthAccum) (j : Json), parseAccumArgs a.input = some j →
        anthEmitStop a = .toolCall ⟨a.id, a.name, j⟩)
    ∧ (∀ (es : List AnthropicEvent) (cur : Option AnthAccum) (outs : List StreamChunk),
        chatAnthropicAux (.messageStop :: es) cur outs
          = chatAnthropicAux es cur (outs ++ [.done])) := by
  refine ⟨?_, ?_, ?_, fun chunks e => rfl, ?_, ?_, fun es cur outs => rfl⟩
  · intro m
    simp [oaEmitFinish]
  · intro m
    unfold countDoneChunks oaEmitFinish
    rw [List.filter_append]
    have h : (List.map oaEmitOne m).filter isDoneChunk = [] := by
      induction m with
      | nil => rfl
      | cons p r ih => simp [List.filter_cons, oaEmitOne_not_done, ih]
    rw [h]
    rfl
  · intro m
    unfold hasErrorChunk oaEmitFinish
    rw [List.any_append]
    have h2 : [StreamChunk.done].any isErrorChunk = false := rfl
    rw [h2, Bool.or_false]
    induction m with
    | nil => simp
    | cons p r ih =>
      simp only [List.map_cons, List.any_cons, Bool.or_eq_true, ih, List.mem_cons]
      constructor
      · rintro (he | ⟨q, hq, hqe⟩)
        · exact ⟨p, Or.inl rfl, (oaEmitOne_error_iff p).mp he⟩
        · exact ⟨q, Or.inr hq, hqe⟩
      · rintro ⟨q, rfl | hq, hqe⟩
        · exact Or.inl ((oaEmitOne_error_iff q).mpr hqe)
        · exact Or.inr ⟨q, hq, hqe⟩
  · intro a h
    simp [anthEmitStop, h]
  · intro a j h
    simp [anthEmitStop, h]

/-- C4 witness: the amended theorem applied to the single buffered tool
call with unparsable arguments `{`. -/
theorem c4_stream_termination_witness :
    (oaEmitFinish [(0, ⟨"call_1", "write_file", "\x7b"⟩)]).getLast? = some .done
    ∧ hasErrorChunk (oaEmitFinish [(0, ⟨"call_1", "write_file", "\x7b"⟩)]) = true
    ∧ anthEmitStop ⟨"toolu_1", "write_file", "\x7b"⟩
        = .error "Failed to parse tool arguments: \x7b" := by
  have h := c4_stream_termination
  exact ⟨h.1 _,
    (h.2.2.1 [(0, ⟨"call_1", "write_file", "\x7b"⟩)]).mpr
      ⟨(0, ⟨"call_1", "write_file", "\x7b"⟩), List.mem_singleton_self _, rfl⟩,
    h.2.2.2.2.1 ⟨"toolu_1", "write_file", "\x7b"⟩ rfl⟩

/-- Helper: a call pushed by `pushCall` is an old one or carries the pushed
name. -/
theorem mem_pushCall {now : Nat} {acc : List ToolCall} {name : String} {args : Json}
    {x : ToolCall} (h : x ∈ pushCall now acc name args) : x ∈ acc ∨ x.name = name := by
  unfold pushCall at h
  rcases List.mem_append.mp h with h1 | h1
  · exact Or.inl h1
  · rw [List.mem_singleton.mp h1]
    exact Or.inr rfl

/-- Helper: a fenced candidate only survives processing when its `tool`
field names a registered capability. -/
theorem procFenceCandidate_mem {names : List String} {payload : String} {t : String}
    {args : Json} (h : procFenceCandidate names payload = some (t, args)) :
    names.contains t = true := by
  unfold procFenceCandidate at h
  (repeat' split at h) <;> simp_all

/-- Helper: processing a DeepSeek or `<function=...>` candidate keeps old
calls and only pushes registered names. -/
theorem procNamedCandidate_mem {now : Nat} {names : List String} {acc : List ToolCall}
    {cand : String × String} {x : ToolCall}
    (h : x ∈ procNamedCandidate now names acc cand) :
    x ∈ acc ∨ names.contains x.name = true := by
  unfold procNamedCandidate at h
  split at h
  · split at h
    · rcases mem_pushCall h with h1 | h1
      · exact Or.inl h1
      · rename_i hcond
        rw [h1]
        exact Or.inr hcond
    · exact Or.inl h
  · exact Or.inl h

/-- Helper: a fold whose step only adds calls satisfying `P` preserves the
invariant. -/
theorem foldl_mem_invariant {α : Type} (P : ToolCall → Prop)
    (f : List ToolCall → α → List ToolCall)
    (hf : ∀ acc a x, x ∈ f acc a → x ∈ acc ∨ P x) :
    ∀ (l : List α) (acc : List ToolCall) (x : ToolCall),
      x ∈ l.foldl f acc → x ∈ acc ∨ P x := by
  intro l
  induction l with
  | nil => intro acc x hx; exact Or.inl hx
  | cons a r ih =>
    intro acc x hx
    rcases ih (f acc a) x hx with h1 | h1
    · exact hf acc a x h1
    · exact Or.inr h1

/-- C7: free-text extraction of the prompt-based adapter.  The response with
one fenced block for registered `read_file` and one for unregistered
`delete_universe` yields exactly one extracted call, named `read_file`; a
response whose first fenced block has an unparsable payload still yields
the call of the second, well-formed block; a response with no candidate
blocks yields the empty list; and in general every extracted call names a
registered capability (unregistered candidates are dropped silently). -/
theorem c7_free_text_extraction :
    extractToolCalls 7 twoBlockText ollamaTools =
      [⟨"ollama_7_0", "read_file", Json.obj [("file_path", Json.str "src/index.ts")]⟩]
    ∧ extractToolCalls 3 malformedFirstText ollamaTools =
      [⟨"ollama_3_0", "read_file", Json.obj [("file_path", Json.str "a.txt")]⟩]
    ∧ extractToolCalls 0 proseText ollamaTools = []
    ∧ (∀ (now : Nat) (response : String) (tools : List ToolSpec) (tc : ToolCall),
        tc ∈ extractToolCalls now response tools →
        (tools.map (fun t => t.name)).contains tc.name = true) := by
  refine ⟨rfl, rfl, rfl, ?_⟩
  intro now response tools tc h
  simp only [extractToolCalls] at h
  have hstepN : ∀ acc a x, x ∈ procNamedCandidate now (tools.map (fun t => t.name)) acc a →
      x ∈ acc ∨ (tools.map (fun t => t.name)).contains x.name = true :=
    fun _ _ _ hx => procNamedCandidate_mem hx
  have hstepF : ∀ acc payload x,
      x ∈ (match procFenceCandidate (tools.map (fun t => t.name)) payload with
           | some (t, args) => pushCall now acc t args
           | none => acc) →
      x ∈ acc ∨ (tools.map (fun t => t.name)).contains x.name = true := by
    intro acc payload x hx
    split at hx
    · rcases mem_pushCall hx with hh | hh
      · exact Or.inl hh
      · rename_i t' args' heqp
        rw [hh]
        exact Or.inr (procFenceCandidate_mem heqp)
    · exact Or.inl hx
  rcases foldl_mem_invariant _ _ hstepN _ _ _ h with h3 | h3
  · rcases foldl_mem_invariant _ _ hstepN _ _ _ h3 with h2 | h2
    · rcases foldl_mem_invariant _ _ hstepF _ _ _ h2 with h1 | h1
      · cases h1
      · exact h1
    · exact h2
  · exact h3

/-- C7 witness: the universal conjunct applied to the extracted `read_file`
call of the two-block response. -/
theorem c7_free_text_extraction_witness :
    (ollamaTools.map (fun t => t.name)).contains "read_file" = true := by
  have e : extractToolCalls 7 twoBlockText ollamaTools =
      [⟨"ollama_7_0", "read_file", Json.obj [("file_path", Json.str "src/index.ts")]⟩] := rfl
  have h := c7_free_text_extraction.2.2.2 7 twoBlockText ollamaTools
    ⟨"ollama_7_0", "read_file", Json.obj [("file_path", Json.str "src/index.ts")]⟩
    (by rw [e]; exact List.mem_singleton_self _)
  exact h

end Thiran
